import Mathlib

/-!
Verification of the command-scheduling and timing-checking core of the
lpddr4-dram-controller repository, as a shallow embedding of the Python and
Migen sources (multiplexer.py, refresher.py, tests/dram_model.py).
Synchronous hardware is modelled as explicit step functions on state records;
per-cycle registered updates become pure functions from (state, inputs) to
state, and Migen signal truncation is modelled with an explicit mod 2^width.
-/

namespace DramModel

/-- DRAM command timing rule (tests/dram_model.py, class TimingRule): a named
minimum delay between a predecessor command `prev` and a successor command
`curr`.  The delay is an integer number of picoseconds, as in the source. -/
structure TimingRule where
  name  : String
  prev  : String
  curr  : String
  delay : Int
  deriving DecidableEq, Repr

/-- Command as seen by the timing checker: only its name and its timestamp are
read by TimingChecker.check_command. -/
structure ChkCommand where
  name : String
  time : Int
  deriving DecidableEq, Repr

/-- Verdict of one rule for one command, the body of the rule loop of
TimingChecker.check_command (tests/dram_model.py lines 181-205): a rule whose
successor is not the command's name is skipped; a matching rule whose
predecessor has no recorded last-seen time is skipped (startup case); otherwise
the elapsed time is compared against the rule's minimum delay. -/
def ruleOk (cmd_time : String → Option Int) (cmd : ChkCommand) (rule : TimingRule) : Bool :=
  if cmd.name ≠ rule.curr then true
  else
    match cmd_time rule.prev with
    | none => true
    | some prev_time =>
      if cmd.time - prev_time < rule.delay then false else true

/-- TimingChecker.check_command (tests/dram_model.py lines 174-209).  The
checker state is the last-seen-time map `cmd_time`; the result is the verdict
(False on any violated rule) together with the updated map, in which the
command's time is stored under its name unconditionally. -/
def check_command (rules : List TimingRule) (cmd_time : String → Option Int)
    (cmd : ChkCommand) : Bool × (String → Option Int) :=
  (rules.foldl (fun result rule => result && ruleOk cmd_time cmd rule) true,
   fun n => if n = cmd.name then some cmd.time else cmd_time n)

/-- Base rule table TimingChecker.RULES (tests/dram_model.py lines 121-146),
as (predecessor, successor, timing-name) triples. -/
def RULES : List (String × String × String) :=
  [("PRE",  "ACT", "tRP"),
   ("PRE",  "REF", "tRP"),
   ("ACT",  "WR",  "tRCD"),
   ("ACT",  "RD",  "tRCD"),
   ("ACT",  "PRE", "tRAS"),
   ("REF",  "PRE", "tRFC"),
   ("REF",  "ACT", "tRFC"),
   ("WR",   "RD",  "tCCD"),
   ("WR",   "WR",  "tCCD"),
   ("RD",   "RD",  "tCCD"),
   ("RD",   "WR",  "tCCD"),
   ("ACT",  "ACT", "tRC"),
   ("WR",   "PRE", "tWR"),
   ("WR",   "RD",  "tWTR"),
   ("ZQCS", "ACT", "tZQCS")]

/-- Renaming applied when duplicating a rule that involves PRE.  The source
uses Python substring replacement, s.replace("PRE", "PREA"); on the command
names appearing in RULES (PRE, ACT, REF, WR, RD, ZQCS) substring replacement
of "PRE" coincides with this equality test, since "PRE" occurs as a substring
of none of the other names. -/
def replacePre (s : String) : String := if s = "PRE" then "PREA" else s

/-- Rule-set initialisation TimingChecker.__init__ (tests/dram_model.py lines
148-164): every base rule is appended with its timing's converted delay, and
every base rule whose predecessor or successor is "PRE" is additionally
appended with "PRE" replaced by "PREA" in both positions, at the same delay.
The per-timing-name conversion int(1e6 * delay_cyc / clk_freq) is abstracted
as the function `delayOf`, applied once per base rule and shared by the
duplicated PREA rule exactly as `delay_tim` is in the source. -/
def initRules (delayOf : String → Int) : List TimingRule :=
  RULES.foldl (fun rules r =>
    let base : TimingRule := ⟨r.2.2, r.1, r.2.1, delayOf r.2.2⟩
    let rules := rules ++ [base]
    if r.1 = "PRE" ∨ r.2.1 = "PRE" then
      rules ++ [⟨r.2.2, replacePre r.1, replacePre r.2.1, delayOf r.2.2⟩]
    else rules) []

/-- Folding a conjunction over a list equals `List.all`. -/
theorem foldl_and_eq_all {α : Type} (f : α → Bool) (l : List α) (b : Bool) :
    l.foldl (fun r a => r && f a) b = (b && l.all f) := by
  induction l generalizing b with
  | nil => simp
  | cons x xs ih => simp [List.all_cons, ih, Bool.and_assoc]

/-- One rule's verdict is False exactly when the rule matches the command's
name, its predecessor has a recorded time, and the elapsed time is below the
rule's delay. -/
theorem ruleOk_eq_false_iff (ct : String → Option Int) (cmd : ChkCommand)
    (r : TimingRule) :
    ruleOk ct cmd r = false ↔
      cmd.name = r.curr ∧ ∃ t, ct r.prev = some t ∧ cmd.time - t < r.delay := by
  unfold ruleOk
  by_cases h : cmd.name = r.curr
  · simp only [h, ne_eq, not_true_eq_false, if_false]
    cases hct : ct r.prev with
    | none => simp [hct]
    | some t =>
      by_cases hd : cmd.time - t < r.delay
      · simp [hct, hd]
      · simp [hct, hd]
  · simp [h]

/-- C1.  For every command fed to the timing checker, check_command returns a
failing verdict if and only if some rule whose successor equals the command's
name has a recorded last-seen time for its predecessor and the elapsed time
(command time minus that last-seen time) is strictly less than the rule's
minimum delay; a command whose required predecessor has no recorded prior
occurrence is never a violation; and in every case the command's time is
recorded as the new last-seen timestamp for its name. -/
theorem check_command_spec (rules : List TimingRule) (ct : String → Option Int)
    (cmd : ChkCommand) :
    ((check_command rules ct cmd).1 = false ↔
      ∃ r ∈ rules, cmd.name = r.curr ∧
        ∃ t, ct r.prev = some t ∧ cmd.time - t < r.delay)
    ∧ (∀ r, r ∈ rules → cmd.name = r.curr → ct r.prev = none →
        ruleOk ct cmd r = true)
    ∧ (check_command rules ct cmd).2 cmd.name = some cmd.time := by
  have hfst : (check_command rules ct cmd).1 = rules.all (fun r => ruleOk ct cmd r) := by
    simp [check_command, foldl_and_eq_all]
  refine ⟨?_, ?_, by simp [check_command]⟩
  · rw [hfst]
    constructor
    · intro h
      have hex : ∃ r ∈ rules, ¬ (ruleOk ct cmd r = true) := by
        by_contra hc
        push_neg at hc
        have hall : rules.all (fun r => ruleOk ct cmd r) = true :=
          List.all_eq_true.mpr (fun r hr => hc r hr)
        rw [hall] at h
        exact absurd h (by simp)
      obtain ⟨r, hr, hfail⟩ := hex
      refine ⟨r, hr, ?_⟩
      exact (ruleOk_eq_false_iff ct cmd r).mp (by simpa using hfail)
    · rintro ⟨r, hr, hmatch, t, ht, hlt⟩
      have hfail : ruleOk ct cmd r = false :=
        (ruleOk_eq_false_iff ct cmd r).mpr ⟨hmatch, t, ht, hlt⟩
      cases hb : rules.all (fun r => ruleOk ct cmd r) with
      | false => rfl
      | true =>
        have := (List.all_eq_true.mp hb) r hr
        rw [hfail] at this
        exact absurd this (by simp)
  · intro r _ hname hnone
    unfold ruleOk
    simp [hname, hnone]

/-- C7.  For every base timing rule whose predecessor or successor command is
the single-bank precharge "PRE", the checker's effective rule set also
contains a rule with the same minimum delay in which "PRE" is replaced by the
all-banks precharge "PREA" in both positions, for every delay-conversion
function. -/
theorem initRules_prea_equivalence (delayOf : String → Int)
    (r : String × String × String) (hr : r ∈ RULES)
    (hpre : r.1 = "PRE" ∨ r.2.1 = "PRE") :
    (⟨r.2.2, replacePre r.1, replacePre r.2.1, delayOf r.2.2⟩ : TimingRule)
      ∈ initRules delayOf
    ∧ (⟨r.2.2, r.1, r.2.1, delayOf r.2.2⟩ : TimingRule) ∈ initRules delayOf := by
  fin_cases hr <;>
    simp_all [initRules, RULES, replacePre]

/-- Witness for C7 at the concrete base rule ("PRE", "ACT", "tRP") and the
zero delay-conversion function. -/
theorem initRules_prea_equivalence_witness :
    (⟨"tRP", replacePre "PRE", replacePre "ACT", (fun _ => (0 : Int)) "tRP"⟩ : TimingRule)
      ∈ initRules (fun _ => (0 : Int))
    ∧ (⟨"tRP", "PRE", "ACT", (fun _ => (0 : Int)) "tRP"⟩ : TimingRule)
      ∈ initRules (fun _ => (0 : Int)) :=
  initRules_prea_equivalence (fun _ => (0 : Int)) ("PRE", "ACT", "tRP")
    (by decide) (by decide)

/-- Decoded DRAM command (tests/dram_model.py, class Command): a name plus the
optional arguments that parse_dfi_command fills into cmd.args. -/
structure Cmd where
  name  : String
  bank  : Option Nat
  row   : Option Nat
  col   : Option Nat
  burst : Option String
  deriving DecidableEq, Repr

/-- Command lookup table Model.COMMANDS (tests/dram_model.py lines 220-230),
keyed by the (RAS, CAS, WE) signal values.  The dict's .get with a None
default is mirrored by List.lookup. -/
def COMMANDS : List ((Nat × Nat × Nat) × String) :=
  [((0, 0, 0), "MRS"),
   ((0, 0, 1), "REF"),
   ((0, 1, 0), "PRE"),
   ((0, 1, 1), "ACT"),
   ((1, 0, 0), "WR"),
   ((1, 0, 1), "RD"),
   ((1, 1, 1), "NOP"),
   ((1, 1, 0), "ZQC")]

/-- DFI input signal values read by Model.parse_dfi_command, as the integers
int(signal.value) the source extracts; the control signals are 1-bit in the
DFI interface, so their values are 0 or 1 in any run. -/
structure DfiIn where
  cke     : Nat
  cs_n    : Nat
  ras_n   : Nat
  cas_n   : Nat
  we_n    : Nat
  bank    : Nat
  address : Nat
  deriving DecidableEq, Repr

/-- Argument-filling part of Model.parse_dfi_command (tests/dram_model.py
lines 344-368), applied once the command name has been found in the table.
Each step conditions on cmd.name as left by the previous step, exactly as the
source mutates cmd in order: bank argument, PRE/PREA split on address bit 10,
ACT row, RD/WR column and burst, ZQC short/long split on address bit 10. -/
def buildCmd (cmd_name : String) (i : DfiIn) : Cmd :=
  let cmd : Cmd := ⟨cmd_name, none, none, none, none⟩
  let cmd := if cmd.name ∈ ["MRS", "ACT", "RD", "WR"]
    then { cmd with bank := some i.bank } else cmd
  let cmd := if cmd.name = "PRE" then
      (if i.address.testBit 10 then { cmd with name := cmd.name ++ "A" }
       else { cmd with bank := some i.bank })
    else cmd
  let cmd := if cmd.name = "ACT" then { cmd with row := some i.address } else cmd
  let cmd := if cmd.name ∈ ["RD", "WR"] then
      { cmd with col := some (i.address &&& 0xFFF),
                 burst := some (if i.address.testBit 12 then "BL8" else "BC4") }
    else cmd
  let cmd := if cmd.name = "ZQC" then
      { cmd with name := if i.address.testBit 10 then cmd.name ++ "L" else cmd.name ++ "S" }
    else cmd
  cmd

/-- Outcome of the table lookup in Model.parse_dfi_command (tests/dram_model.py
lines 336-340): a miss logs the unknown command code, sets self.passed = False
and returns no command; a hit builds the command. -/
def parse_code : Option String → DfiIn → Option Cmd × Bool
  | none, _ => (none, false)
  | some cmd_name, i => (some (buildCmd cmd_name i), true)

/-- Model.parse_dfi_command (tests/dram_model.py lines 320-372).  Returns the
decoded command (none on a disabled cycle or a failed decode) paired with a
flag that is false exactly when the unknown-command-code branch ran and set
self.passed = False. -/
def parse_dfi_command (i : DfiIn) : Option Cmd × Bool :=
  if i.cke = 0 ∨ i.cs_n ≠ 0 then (none, true)
  else parse_code (List.lookup (i.ras_n, i.cas_n, i.we_n) COMMANDS) i

/-- Decode of the (0,1,0) code: precharge, split by address bit 10. -/
theorem parse_code_PRE (ba addr : Nat) :
    parse_dfi_command ⟨1, 0, 0, 1, 0, ba, addr⟩ =
      (some (if addr.testBit 10 then ⟨"PREA", none, none, none, none⟩
             else ⟨"PRE", some ba, none, none, none⟩), true) := by
  have hlk : List.lookup ((0 : Nat), (1 : Nat), (0 : Nat)) COMMANDS = some "PRE" := by decide
  simp only [parse_dfi_command]
  rw [if_neg (by norm_num), hlk]
  by_cases h10 : addr.testBit 10 <;> simp [parse_code, buildCmd, h10]

/-- Decode of the (1,1,0) code: ZQ calibration, split by address bit 10. -/
theorem parse_code_ZQC (ba addr : Nat) :
    parse_dfi_command ⟨1, 0, 1, 1, 0, ba, addr⟩ =
      (some ⟨if addr.testBit 10 then "ZQCL" else "ZQCS", none, none, none, none⟩, true) := by
  have hlk : List.lookup ((1 : Nat), (1 : Nat), (0 : Nat)) COMMANDS = some "ZQC" := by decide
  simp only [parse_dfi_command]
  rw [if_neg (by norm_num), hlk]
  by_cases h10 : addr.testBit 10 <;> simp [parse_code, buildCmd, h10]

/-- Decode of the (0,0,0) code: mode register set. -/
theorem parse_code_MRS (ba addr : Nat) :
    parse_dfi_command ⟨1, 0, 0, 0, 0, ba, addr⟩ =
      (some ⟨"MRS", some ba, none, none, none⟩, true) := by
  have hlk : List.lookup ((0 : Nat), (0 : Nat), (0 : Nat)) COMMANDS = some "MRS" := by decide
  simp only [parse_dfi_command]
  rw [if_neg (by norm_num), hlk]
  simp [parse_code, buildCmd]

/-- Decode of the (0,0,1) code: auto refresh. -/
theorem parse_code_REF (ba addr : Nat) :
    parse_dfi_command ⟨1, 0, 0, 0, 1, ba, addr⟩ =
      (some ⟨"REF", none, none, none, none⟩, true) := by
  have hlk : List.lookup ((0 : Nat), (0 : Nat), (1 : Nat)) COMMANDS = some "REF" := by decide
  simp only [parse_dfi_command]
  rw [if_neg (by norm_num), hlk]
  simp [parse_code, buildCmd]

/-- Decode of the (0,1,1) code: activate, carrying bank and row. -/
theorem parse_code_ACT (ba addr : Nat) :
    parse_dfi_command ⟨1, 0, 0, 1, 1, ba, addr⟩ =
      (some ⟨"ACT", some ba, some addr, none, none⟩, true) := by
  have hlk : List.lookup ((0 : Nat), (1 : Nat), (1 : Nat)) COMMANDS = some "ACT" := by decide
  simp only [parse_dfi_command]
  rw [if_neg (by norm_num), hlk]
  simp [parse_code, buildCmd]

/-- Decode of the (1,0,0) code: write, carrying bank, column and burst. -/
theorem parse_code_WR (ba addr : Nat) :
    parse_dfi_command ⟨1, 0, 1, 0, 0, ba, addr⟩ =
      (some ⟨"WR", some ba, none, some (addr &&& 0xFFF),
             some (if addr.testBit 12 then "BL8" else "BC4")⟩, true) := by
  have hlk : List.lookup ((1 : Nat), (0 : Nat), (0 : Nat)) COMMANDS = some "WR" := by decide
  simp only [parse_dfi_command]
  rw [if_neg (by norm_num), hlk]
  by_cases h12 : addr.testBit 12 <;> simp [parse_code, buildCmd, h12]

/-- Decode of the (1,0,1) code: read, carrying bank, column and burst. -/
theorem parse_code_RD (ba addr : Nat) :
    parse_dfi_command ⟨1, 0, 1, 0, 1, ba, addr⟩ =
      (some ⟨"RD", some ba, none, some (addr &&& 0xFFF),
             some (if addr.testBit 12 then "BL8" else "BC4")⟩, true) := by
  have hlk : List.lookup ((1 : Nat), (0 : Nat), (1 : Nat)) COMMANDS = some "RD" := by decide
  simp only [parse_dfi_command]
  rw [if_neg (by norm_num), hlk]
  by_cases h12 : addr.testBit 12 <;> simp [parse_code, buildCmd, h12]

/-- Decode of the (1,1,1) code: no operation. -/
theorem parse_code_NOP (ba addr : Nat) :
    parse_dfi_command ⟨1, 0, 1, 1, 1, ba, addr⟩ =
      (some ⟨"NOP", none, none, none, none⟩, true) := by
  have hlk : List.lookup ((1 : Nat), (1 : Nat), (1 : Nat)) COMMANDS = some "NOP" := by decide
  simp only [parse_dfi_command]
  rw [if_neg (by norm_num), hlk]
  simp [parse_code, buildCmd]

/-- C8.  Command decoding is a pure, deterministic function of the three
control bits and the address field: code (0,1,0) decodes to precharge, split
into single-bank (carrying the bank argument) or all-banks by address bit 10;
code (1,1,0) decodes to ZQ calibration, split into short or long by address
bit 10; every other code maps directly via the fixed lookup table; an
unrecognized code produces no command and clears the pass flag; and decoding
the same inputs twice yields identical decoded commands. -/
theorem parse_dfi_command_decode (ba addr : Nat) :
    parse_dfi_command ⟨1, 0, 0, 1, 0, ba, addr⟩ =
      (some (if addr.testBit 10 then ⟨"PREA", none, none, none, none⟩
             else ⟨"PRE", some ba, none, none, none⟩), true)
    ∧ parse_dfi_command ⟨1, 0, 1, 1, 0, ba, addr⟩ =
      (some ⟨if addr.testBit 10 then "ZQCL" else "ZQCS", none, none, none, none⟩, true)
    ∧ parse_dfi_command ⟨1, 0, 0, 0, 0, ba, addr⟩ =
      (some ⟨"MRS", some ba, none, none, none⟩, true)
    ∧ parse_dfi_command ⟨1, 0, 0, 0, 1, ba, addr⟩ =
      (some ⟨"REF", none, none, none, none⟩, true)
    ∧ parse_dfi_command ⟨1, 0, 0, 1, 1, ba, addr⟩ =
      (some ⟨"ACT", some ba, some addr, none, none⟩, true)
    ∧ parse_dfi_command ⟨1, 0, 1, 0, 0, ba, addr⟩ =
      (some ⟨"WR", some ba, none, some (addr &&& 0xFFF),
             some (if addr.testBit 12 then "BL8" else "BC4")⟩, true)
    ∧ parse_dfi_command ⟨1, 0, 1, 0, 1, ba, addr⟩ =
      (some ⟨"RD", some ba, none, some (addr &&& 0xFFF),
             some (if addr.testBit 12 then "BL8" else "BC4")⟩, true)
    ∧ parse_dfi_command ⟨1, 0, 1, 1, 1, ba, addr⟩ =
      (some ⟨"NOP", none, none, none, none⟩, true)
    ∧ (∀ r c w, List.lookup (r, c, w) COMMANDS = none →
        parse_dfi_command ⟨1, 0, r, c, w, ba, addr⟩ = (none, false))
    ∧ (∀ j : DfiIn, parse_dfi_command j = parse_dfi_command j) := by
  refine ⟨parse_code_PRE ba addr, parse_code_ZQC ba addr, parse_code_MRS ba addr,
    parse_code_REF ba addr, parse_code_ACT ba addr, parse_code_WR ba addr,
    parse_code_RD ba addr, parse_code_NOP ba addr, ?_, fun _ => rfl⟩
  intro r c w hnone
  simp only [parse_dfi_command]
  rw [if_neg (by norm_num), hnone]
  simp [parse_code]

/-- C10.  For every enabled command cycle (clock-enable asserted and
chip-select active), the 3-bit lookup always succeeds because the command
table contains an entry for all 8 combinations of the 1-bit (ras, cas, we)
control values, so decoding an enabled cycle always yields a command and never
takes the unknown-code failure branch. -/
theorem commands_table_total (r c w ba addr : Nat)
    (hr : r ≤ 1) (hc : c ≤ 1) (hw : w ≤ 1) :
    (List.lookup (r, c, w) COMMANDS).isSome = true
    ∧ (parse_dfi_command ⟨1, 0, r, c, w, ba, addr⟩).1.isSome = true
    ∧ (parse_dfi_command ⟨1, 0, r, c, w, ba, addr⟩).2 = true := by
  interval_cases r <;> interval_cases c <;> interval_cases w <;>
    refine ⟨by decide, ?_, ?_⟩ <;>
    simp [parse_code_MRS, parse_code_REF, parse_code_PRE, parse_code_ACT,
      parse_code_WR, parse_code_RD, parse_code_NOP, parse_code_ZQC]

/-- Witness for C10 at the concrete enabled cycle with code (0, 1, 0). -/
theorem commands_table_total_witness :
    (List.lookup ((0 : Nat), (1 : Nat), (0 : Nat)) COMMANDS).isSome = true
    ∧ (parse_dfi_command ⟨1, 0, 0, 1, 0, 3, 1024⟩).1.isSome = true
    ∧ (parse_dfi_command ⟨1, 0, 0, 1, 0, 3, 1024⟩).2 = true :=
  commands_table_total 0 1 0 3 1024 (by decide) (by decide) (by decide)

/-- Bank state (tests/dram_model.py, class Bank). -/
structure BankSt where
  is_active : Bool
  row       : Option Nat
  deriving DecidableEq, Repr

/-- State of the PHY+DRAM model touched by the command-handling part of
Model.tick: the per-bank states, the aggregate pass/fail verdict and the
pending read/write command queue. -/
structure ModelSt where
  banks  : Nat → BankSt
  passed : Bool
  queue  : List Cmd

/-- Command-handling dispatch of Model.tick (tests/dram_model.py lines
274-311).  ACT activates the bank and records the row (activating an already
active bank at the same row only logs a warning and changes nothing else);
PRE and PREA deactivate one or all banks; WR and RD clear the verdict when the
targeted bank is inactive and in every case append the command to the queue.
The source reads cmd.args["bank"], which every command produced by
parse_dfi_command with one of these names carries; the lookup is mirrored with
getD 0. -/
def handle_command (s : ModelSt) (cmd : Cmd) : ModelSt :=
  if cmd.name = "ACT" then
    let b := cmd.bank.getD 0
    { s with banks := fun n => if n = b then ⟨true, some (cmd.row.getD 0)⟩ else s.banks n }
  else if cmd.name = "PRE" then
    let b := cmd.bank.getD 0
    { s with banks := fun n => if n = b then ⟨false, none⟩ else s.banks n }
  else if cmd.name = "PREA" then
    { s with banks := fun _ => ⟨false, none⟩ }
  else if cmd.name = "WR" then
    let b := cmd.bank.getD 0
    { s with passed := if (s.banks b).is_active then s.passed else false,
             queue := s.queue ++ [cmd] }
  else if cmd.name = "RD" then
    let b := cmd.bank.getD 0
    { s with passed := if (s.banks b).is_active then s.passed else false,
             queue := s.queue ++ [cmd] }
  else s

/-- Per-command part of Model.tick (tests/dram_model.py lines 262-311): for a
non-NOP command the timing checker verdict is folded into the aggregate
verdict, then the command is handled. -/
def tick (rules : List TimingRule) (ct : String → Option Int) (s : ModelSt)
    (cmd : Cmd) (time : Int) : ModelSt × (String → Option Int) :=
  if cmd.name ≠ "NOP" then
    let res := check_command rules ct ⟨cmd.name, time⟩
    (handle_command { s with passed := s.passed && res.1 } cmd, res.2)
  else (handle_command s cmd, ct)

/-- Write command with the arguments parse_dfi_command gives it. -/
def wrCmd (b colv : Nat) (bst : String) : Cmd := ⟨"WR", some b, none, some colv, some bst⟩

/-- Read command with the arguments parse_dfi_command gives it. -/
def rdCmd (b colv : Nat) (bst : String) : Cmd := ⟨"RD", some b, none, some colv, some bst⟩

/-- Activate command with the arguments parse_dfi_command gives it. -/
def actCmd (b r : Nat) : Cmd := ⟨"ACT", some b, some r, none, none⟩

/-- C9.  When a decoded read or write command targets a bank whose tracked
state is closed, the model marks the aggregate verdict as failed and still
handles the command (it is appended to the pending queue, not aborted);
whereas an activate command, in particular one addressed to an already-open
bank at the same row, leaves the aggregate verdict and the queue unchanged and
only updates the bank state. -/
theorem handle_command_bank_state_verdicts (s : ModelSt) (b colv r : Nat) (bst : String) :
    ((s.banks b).is_active = false →
      (handle_command s (wrCmd b colv bst)).passed = false
      ∧ (handle_command s (rdCmd b colv bst)).passed = false)
    ∧ (handle_command s (wrCmd b colv bst)).queue = s.queue ++ [wrCmd b colv bst]
    ∧ (handle_command s (rdCmd b colv bst)).queue = s.queue ++ [rdCmd b colv bst]
    ∧ (handle_command s (actCmd b r)).passed = s.passed
    ∧ (handle_command s (actCmd b r)).queue = s.queue
    ∧ ((s.banks b).is_active = true → (s.banks b).row = some r →
      (handle_command s (actCmd b r)).banks b = ⟨true, some r⟩
      ∧ (handle_command s (actCmd b r)).passed = s.passed) := by
  refine ⟨fun hcl => ⟨?_, ?_⟩, ?_, ?_, ?_, ?_, fun _ _ => ⟨?_, ?_⟩⟩ <;>
    simp [handle_command, wrCmd, rdCmd, actCmd, *]

end DramModel

namespace Multiplexer

/-- Scheduler FSM state (multiplexer.py lines 186-246): READ, WRITE, REFRESH,
WTR, and the read-to-write turnaround chain created by
fsm.delayed_enter("RTW", "WRITE", delay), encoded as rtw k with k the number
of chain states still to traverse before WRITE. -/
inductive MuxState where
  | read
  | write
  | refresh
  | wtr
  | rtw (k : Nat)
  deriving DecidableEq, Repr

/-- Combinational inputs read by the FSM in one cycle: pending-request levels,
the anti-starvation max-time levels, the per-bank-machine refresh grants, the
Refresher's last marker and the write-to-read guard's ready. -/
structure MuxIn where
  write_available : Bool
  read_available  : Bool
  max_read_time   : Bool
  max_write_time  : Bool
  refresh_gnts    : List Bool
  refresher_last  : Bool
  twtr_ready      : Bool
  deriving DecidableEq, Repr

/-- go_to_refresh (multiplexer.py lines 157-159): the AND reduction of the
bank machines' refresh grants.  reduce(and_, l) on the nonempty grant list
equals the conjunction over the list. -/
def go_to_refresh (gnts : List Bool) : Bool := gnts.all (fun g => g)

/-- Entry into the delayed RTW chain: delayed_enter with delay d creates d
chain states, and with delay 0 aliases RTW to WRITE. -/
def rtwEnter (d : Nat) : MuxState := if d = 0 then MuxState.write else MuxState.rtw d

/-- One transition of the control FSM (multiplexer.py lines 187-246).  In READ
and WRITE the two NextState assignments execute in order, so a simultaneous
go_to_refresh overrides the turnaround transition, as the later Migen
statement wins.  REFRESH returns to READ when the refresher's last marker is
seen; WTR returns to READ when the write-to-read guard is ready; each RTW
chain state advances unconditionally towards WRITE. -/
def muxStep (d : Nat) (s : MuxState) (i : MuxIn) : MuxState :=
  match s with
  | MuxState.read =>
    if go_to_refresh i.refresh_gnts then MuxState.refresh
    else if i.write_available && (!i.read_available || i.max_read_time) then rtwEnter d
    else MuxState.read
  | MuxState.write =>
    if go_to_refresh i.refresh_gnts then MuxState.refresh
    else if i.read_available && (!i.write_available || i.max_write_time) then MuxState.wtr
    else MuxState.write
  | MuxState.refresh => if i.refresher_last then MuxState.read else MuxState.refresh
  | MuxState.wtr => if i.twtr_ready then MuxState.read else MuxState.wtr
  | MuxState.rtw k => if k ≤ 1 then MuxState.write else MuxState.rtw (k - 1)

/-- C2.  The Refresh state is entered (from Read or Write) only in a cycle
where the refresh grants of all bank machines are simultaneously asserted
(their logical AND holds), and the Refresh state is left only to the Read
state, exactly in a cycle where the Refresher's last marker is asserted. -/
theorem refresh_entry_exit (d : Nat) (s : MuxState) (i : MuxIn) :
    (muxStep d s i = MuxState.refresh ↔
      ((s = MuxState.refresh ∧ i.refresher_last = false)
       ∨ ((s = MuxState.read ∨ s = MuxState.write)
          ∧ go_to_refresh i.refresh_gnts = true)))
    ∧ muxStep d MuxState.refresh i =
        (if i.refresher_last then MuxState.read else MuxState.refresh) := by
  refine ⟨?_, rfl⟩
  cases s with
  | read =>
    constructor
    · intro h
      simp only [muxStep] at h
      by_cases hg : go_to_refresh i.refresh_gnts = true
      · exact Or.inr ⟨Or.inl rfl, hg⟩
      · exfalso
        rw [if_neg hg] at h
        by_cases hc : (i.write_available && (!i.read_available || i.max_read_time)) = true
        · rw [if_pos hc] at h
          unfold rtwEnter at h
          by_cases hdz : d = 0
          · rw [if_pos hdz] at h
            exact MuxState.noConfusion h
          · rw [if_neg hdz] at h
            exact MuxState.noConfusion h
        · rw [if_neg hc] at h
          exact MuxState.noConfusion h
    · rintro (⟨h, _⟩ | ⟨_, hgt⟩)
      · exact MuxState.noConfusion h
      · show muxStep d MuxState.read i = MuxState.refresh
        simp [muxStep, hgt]
  | write =>
    constructor
    · intro h
      simp only [muxStep] at h
      by_cases hg : go_to_refresh i.refresh_gnts = true
      · exact Or.inr ⟨Or.inr rfl, hg⟩
      · exfalso
        rw [if_neg hg] at h
        by_cases hc : (i.read_available && (!i.write_available || i.max_write_time)) = true
        · rw [if_pos hc] at h
          exact MuxState.noConfusion h
        · rw [if_neg hc] at h
          exact MuxState.noConfusion h
    · rintro (⟨h, _⟩ | ⟨_, hgt⟩)
      · exact MuxState.noConfusion h
      · show muxStep d MuxState.write i = MuxState.refresh
        simp [muxStep, hgt]
  | refresh =>
    constructor
    · intro h
      cases hl : i.refresher_last with
      | true =>
        simp only [muxStep] at h
        rw [if_pos hl] at h
        exact MuxState.noConfusion h
      | false => exact Or.inl ⟨rfl, rfl⟩
    · rintro (⟨_, hl⟩ | ⟨(h | h), _⟩)
      · show muxStep d MuxState.refresh i = MuxState.refresh
        simp [muxStep, hl]
      · exact MuxState.noConfusion h
      · exact MuxState.noConfusion h
  | wtr =>
    constructor
    · intro h
      simp only [muxStep] at h
      by_cases ht : i.twtr_ready = true
      · rw [if_pos ht] at h
        exact MuxState.noConfusion h
      · rw [if_neg ht] at h
        exact MuxState.noConfusion h
    · rintro (⟨h, _⟩ | ⟨(h | h), _⟩) <;> exact MuxState.noConfusion h
  | rtw k =>
    constructor
    · intro h
      simp only [muxStep] at h
      by_cases hk : k ≤ 1
      · rw [if_pos hk] at h
        exact MuxState.noConfusion h
      · rw [if_neg hk] at h
        exact MuxState.noConfusion h
    · rintro (⟨h, _⟩ | ⟨(h | h), _⟩) <;> exact MuxState.noConfusion h

/-- Anti-starvation max_time level (multiplexer.py lines 136-150): for a
nonzero timeout it is the comparison time == 0; a zero timeout wires it to
constant 0 and creates no counter. -/
def max_time (timeout t : Nat) : Bool :=
  if timeout = 0 then false else t == 0

/-- Synchronous update of the anti-starvation down-counter (multiplexer.py
lines 143-147): when its class is not enabled the counter reloads to
timeout - 1; while enabled it decrements until it reaches zero and then
holds. -/
def anti_starvation_next (timeout : Nat) (en : Bool) (t : Nat) : Nat :=
  if timeout = 0 then t
  else if !en then timeout - 1
  else if max_time timeout t then t
  else t - 1

/-- Registered state of the scheduler relevant to the turnaround claims: the
FSM state and the two anti-starvation counters. -/
structure SchedState where
  fsm   : MuxState
  rtime : Nat
  wtime : Nat
  deriving DecidableEq, Repr

/-- External per-cycle inputs of the scheduler (request levels, refresh
grants, refresher last marker, write-to-read guard ready). -/
structure SchedIn where
  write_available : Bool
  read_available  : Bool
  refresh_gnts    : List Bool
  refresher_last  : Bool
  twtr_ready      : Bool
  deriving DecidableEq, Repr

/-- Combinational FSM inputs in a cycle: the max-time levels come from the
current counters, the rest from the external inputs. -/
def muxInOf (R W : Nat) (s : SchedState) (i : SchedIn) : MuxIn :=
  ⟨i.write_available, i.read_available, max_time R s.rtime, max_time W s.wtime,
   i.refresh_gnts, i.refresher_last, i.twtr_ready⟩

/-- One synchronous cycle of the scheduler with read/write anti-starvation
timeouts R and W and RTW delay d: the FSM transitions on the current
combinational inputs, and each counter is enabled exactly while the FSM is in
its traffic state (read_time_en is asserted in READ, write_time_en in
WRITE). -/
def schedStep (R W d : Nat) (s : SchedState) (i : SchedIn) : SchedState :=
  { fsm   := muxStep d s.fsm (muxInOf R W s i),
    rtime := anti_starvation_next R (decide (s.fsm = MuxState.read)) s.rtime,
    wtime := anti_starvation_next W (decide (s.fsm = MuxState.write)) s.wtime }

/-- Trajectory of the scheduler from a state s0 under an input stream. -/
def schedRun (R W d : Nat) (inp : Nat → SchedIn) (s0 : SchedState) : Nat → SchedState
  | 0 => s0
  | t + 1 => schedStep R W d (schedRun R W d inp s0 t) (inp t)

/-- While the FSM is in READ with timeout 20, the read counter decrements
(and holds at zero), i.e. its next value is its value minus one in saturating
arithmetic. -/
theorem schedStep_rtime_read (W d : Nat) (s : SchedState) (i : SchedIn)
    (hf : s.fsm = MuxState.read) :
    (schedStep 20 W d s i).rtime = s.rtime - 1 := by
  simp only [schedStep, anti_starvation_next, max_time, hf]
  by_cases ht : s.rtime = 0 <;> simp [ht]

/-- Input with a write pending, no read pending, and all refresh grants
asserted: the condition of the read-to-write turnaround transition holds, yet
the FSM leaves READ for REFRESH, because the later go_to_refresh NextState
assignment overrides the turnaround one. -/
def refreshDuringRead : MuxIn :=
  ⟨true, false, false, false, [true, true], false, false⟩

/-- C3 counterexample.  In the Read state, with a write pending and no read
pending (so the claimed turnaround condition holds) but with all bank
machines' refresh grants asserted in the same cycle, the FSM transitions to
Refresh and not to the read-to-write turnaround state. -/
theorem read_turnaround_refresh_priority_cex :
    (refreshDuringRead.write_available
      && (!refreshDuringRead.read_available || refreshDuringRead.max_read_time)) = true
    ∧ muxStep 1 MuxState.read refreshDuringRead = MuxState.refresh
    ∧ muxStep 1 MuxState.read refreshDuringRead ≠ rtwEnter 1 := by decide

/-- C3 (amended).  In the Read state the FSM transitions to the read-to-write
turnaround state exactly when the refresh grant condition does not hold and a
write request is pending and (no read request is pending or the read-phase
anti-starvation timer has expired); and with a read-phase starvation timeout
of 20 and a positive turnaround delay, after 20 cycles of continuous Read,
with a write pending and refresh not granted at the 20th of them, the FSM is
in the turnaround state at the next cycle regardless of ongoing read
demand. -/
theorem read_to_write_turnaround (d R W c : Nat) (i : MuxIn)
    (inp : Nat → SchedIn) (s0 : SchedState)
    (hd : 1 ≤ d) (hR : R = 20)
    (hrt : (schedRun R W d inp s0 c).rtime ≤ 19)
    (hread : ∀ j, j < 20 → (schedRun R W d inp s0 (c + j)).fsm = MuxState.read)
    (hw : (inp (c + 19)).write_available = true)
    (hnr : go_to_refresh (inp (c + 19)).refresh_gnts = false) :
    (muxStep d MuxState.read i = MuxState.rtw d ↔
      (go_to_refresh i.refresh_gnts = false
       ∧ (i.write_available && (!i.read_available || i.max_read_time)) = true))
    ∧ (schedRun R W d inp s0 (c + 20)).fsm = MuxState.rtw d := by
  have hd0 : d ≠ 0 := by omega
  subst hR
  constructor
  · constructor
    · intro hstep
      simp only [muxStep] at hstep
      by_cases hg : go_to_refresh i.refresh_gnts = true
      · rw [if_pos hg] at hstep
        exact MuxState.noConfusion hstep
      · rw [if_neg hg] at hstep
        by_cases hc : (i.write_available && (!i.read_available || i.max_read_time)) = true
        · exact ⟨by simpa using hg, hc⟩
        · rw [if_neg hc] at hstep
          exact MuxState.noConfusion hstep
    · rintro ⟨hg, hc⟩
      simp [muxStep, hg, hc, rtwEnter, hd0]
  · have hdec : ∀ j, j ≤ 19 →
        (schedRun 20 W d inp s0 (c + j)).rtime ≤ 19 - j := by
      intro j
      induction j with
      | zero =>
        intro _
        simpa using hrt
      | succ k ih =>
        intro hk
        have hk19 : k ≤ 19 := by omega
        have hk20 : k < 20 := by omega
        have hstep : schedRun 20 W d inp s0 (c + (k + 1)) =
            schedStep 20 W d (schedRun 20 W d inp s0 (c + k)) (inp (c + k)) := by
          rw [show c + (k + 1) = (c + k) + 1 by omega]
          rfl
        rw [hstep, schedStep_rtime_read W d _ _ (hread k hk20)]
        have := ih hk19
        omega
    have hzero : (schedRun 20 W d inp s0 (c + 19)).rtime = 0 := by
      have := hdec 19 (by omega)
      omega
    have hstep : schedRun 20 W d inp s0 (c + 20) =
        schedStep 20 W d (schedRun 20 W d inp s0 (c + 19)) (inp (c + 19)) := by
      rw [show c + 20 = (c + 19) + 1 by omega]
      rfl
    rw [hstep]
    have hf : (schedRun 20 W d inp s0 (c + 19)).fsm = MuxState.read :=
      hread 19 (by omega)
    simp only [schedStep, hf, muxInOf, muxStep, max_time, hzero]
    simp [hnr, hw, rtwEnter, hd0]

/-- Concrete input stream for the C3 witness: no write pending until cycle 19,
a write pending (and a read still pending) at cycle 19, refresh never
granted. -/
def c3inp : Nat → SchedIn :=
  fun t => if t = 19 then ⟨true, true, [false], false, false⟩
           else ⟨false, true, [false], false, false⟩

/-- Concrete start state for the C3 witness: in READ with a freshly loaded
read anti-starvation counter. -/
def c3s0 : SchedState := ⟨MuxState.read, 19, 15⟩

/-- Witness for C3 at the concrete run c3inp from c3s0 with timeouts 20/16 and
turnaround delay 1. -/
theorem read_to_write_turnaround_witness :
    (muxStep 1 MuxState.read refreshDuringRead = MuxState.rtw 1 ↔
      (go_to_refresh refreshDuringRead.refresh_gnts = false
       ∧ (refreshDuringRead.write_available
          && (!refreshDuringRead.read_available || refreshDuringRead.max_read_time)) = true))
    ∧ (schedRun 20 16 1 c3inp c3s0 (0 + 20)).fsm = MuxState.rtw 1 :=
  read_to_write_turnaround 1 20 16 0 refreshDuringRead c3inp c3s0
    (by decide) rfl (by decide) (by decide) (by decide) (by decide)

/-- Migen bits_for(n): the number of bits needed to hold the unsigned value n,
i.e. the least k with n < 2^k (migen.fhdl.bitcontainer.bits_for). -/
def bits_for (n : Nat) : Nat :=
  (((List.range (n + 1)).find? (fun k => decide (n < 2 ^ k))).getD (n + 1))

/-- Write latency math.ceil(cwl / nphases) (multiplexer.py line 114), as
ceiling division on naturals. -/
def write_latency (cwl nphases : Nat) : Nat := (cwl + nphases - 1) / nphases

/-- Value loaded into the write-to-read turnaround guard (multiplexer.py lines
113-121).  twtrcon_init is declared as Signal(max = tWTR.nbits + write_latency
+ tCCD.nbits), so its width is bits_for of that max minus one, and the
combinational assignment twtrcon_init.eq(tWTR + write_latency + tCCD)
truncates the sum to that width, as a Migen .eq onto a narrower signal
does. -/
def twtrcon_init (wtr_nbits ccd_nbits cwl nphases tWTR tCCD : Nat) : Nat :=
  let wl := write_latency cwl nphases
  let width := bits_for (wtr_nbits + wl + ccd_nbits - 1)
  (tWTR + wl + tCCD) % 2 ^ width

/-- C4.  The claim that the delay value loaded into the write-to-read guard
equals tWTR + ceil(cwl/nphases) + tCCD for all register values fails on the
code: the guard's init signal is sized from the registers' bit widths, not
their value ranges, so the sum is truncated.  With 8-bit tWTR and tCCD
registers, cwl = 2 and nphases = 1, the signal is 5 bits wide and the in-range
values tWTR = 30, tCCD = 5 load 37 mod 32 = 5 instead of 37; the commented-out
original computation at multiplexer.py lines 117-120 and the intent that tCCD
be included additively identify the truncation as the slip. -/
theorem twtrcon_init_truncates :
    twtrcon_init 8 8 2 1 30 5 = 5
    ∧ 30 + write_latency 2 1 + 5 = 37
    ∧ 30 < 2 ^ 8 ∧ 5 < 2 ^ 8
    ∧ twtrcon_init 8 8 2 1 30 5 ≠ 30 + write_latency 2 1 + 5 := by decide

end Multiplexer

namespace Refresher

/-- Postponer state (refresher.py lines 149-170): the down-counter, reset to
postponing - 1, and the registered one-cycle output request. -/
structure PostSt where
  count : Nat
  req_o : Bool
  deriving DecidableEq, Repr

/-- One synchronous cycle of RefreshPostponer (refresher.py lines 161-170):
req_o defaults to 0; on an input pulse the counter decrements, and when it is
at zero it reloads to its reset value and req_o is asserted for one cycle (the
later assignments override the earlier ones, as in the Migen block). -/
def postStep (postponing : Nat) (s : PostSt) (req_i : Bool) : PostSt :=
  if req_i then
    (if s.count = 0 then ⟨postponing - 1, true⟩ else ⟨s.count - 1, false⟩)
  else ⟨s.count, false⟩

/-- Reset state of the postponer: counter at postponing - 1, request low. -/
def postReset (postponing : Nat) : PostSt := ⟨postponing - 1, false⟩

/-- Run of the postponer from reset under an input pulse stream. -/
def postRun (postponing : Nat) (inp : Nat → Bool) : Nat → PostSt
  | 0 => postReset postponing
  | t + 1 => postStep postponing (postRun postponing inp t) (inp t)

/-- Number of input pulses seen strictly before cycle t. -/
def pulseCount (inp : Nat → Bool) : Nat → Nat
  | 0 => 0
  | t + 1 => pulseCount inp t + (if inp t then 1 else 0)

/-- Arithmetic helper: a successor crosses a multiple of N when the remainder
was N - 1. -/
theorem mod_succ_of_eq (N p : Nat) (hN : 1 ≤ N) (h : p % N = N - 1) :
    (p + 1) % N = 0 := by
  have hdm := Nat.div_add_mod p N
  have hp : p + 1 = N * (p / N) + N := by omega
  rw [hp, show N * (p / N) + N = N * (p / N + 1) by ring]
  exact Nat.mul_mod_right N _

/-- Arithmetic helper: a successor keeps its remainder plus one while below
N. -/
theorem mod_succ_of_lt (N p : Nat) (h : p % N + 1 < N) :
    (p + 1) % N = p % N + 1 := by
  have hdm := Nat.div_add_mod p N
  have hp : p + 1 = N * (p / N) + (p % N + 1) := by omega
  rw [hp, Nat.mul_add_mod]
  exact Nat.mod_eq_of_lt h

/-- Invariant of the postponer: the counter complements the pulse count modulo
the postponement depth. -/
theorem postRun_count_inv (N : Nat) (hN : 1 ≤ N) (inp : Nat → Bool) (t : Nat) :
    (postRun N inp t).count + pulseCount inp t % N = N - 1 := by
  induction t with
  | zero => simp [postRun, postReset, pulseCount]
  | succ t ih =>
    have hlt : pulseCount inp t % N < N := Nat.mod_lt _ (by omega)
    cases hi : inp t with
    | false =>
      simp only [postRun, pulseCount]
      rw [hi]
      simp [postStep]
      omega
    | true =>
      by_cases hc : (postRun N inp t).count = 0
      · have hp : pulseCount inp t % N = N - 1 := by omega
        have h0 : (pulseCount inp t + 1) % N = 0 := mod_succ_of_eq N _ hN hp
        simp only [postRun, pulseCount]
        rw [hi]
        simp [postStep, hc, h0]
      · have h1 : pulseCount inp t % N + 1 < N := by omega
        have h2 : (pulseCount inp t + 1) % N = pulseCount inp t % N + 1 :=
          mod_succ_of_lt N _ h1
        simp only [postRun, pulseCount]
        rw [hi]
        simp [postStep, hc, h2]
        omega

/-- Four consecutive timer pulses from reset, then silence. -/
def fourPulses : Nat → Bool := fun t => decide (t < 4)

/-- C6.  From reset, the postponer's output request is asserted for exactly
one cycle following every Nth assertion of the input pulse and is deasserted
in all other cycles: it is low at reset, and at every cycle t+1 it is high iff
the input pulsed at t and the total number of pulses seen is then a multiple
of N.  In particular for N = 4 and four consecutive pulses, the first three
produce no downstream request and the fourth produces exactly one. -/
theorem refresh_postponer_every_nth (N : Nat) (inp : Nat → Bool) (t : Nat)
    (hN : 1 ≤ N) :
    (postRun N inp 0).req_o = false
    ∧ ((postRun N inp (t + 1)).req_o = (inp t && (pulseCount inp (t + 1) % N == 0)))
    ∧ ((postRun 4 fourPulses 1).req_o = false
       ∧ (postRun 4 fourPulses 2).req_o = false
       ∧ (postRun 4 fourPulses 3).req_o = false
       ∧ (postRun 4 fourPulses 4).req_o = true
       ∧ (postRun 4 fourPulses 5).req_o = false) := by
  refine ⟨rfl, ?_, by decide⟩
  have hinv := postRun_count_inv N hN inp t
  have hlt : pulseCount inp t % N < N := Nat.mod_lt _ (by omega)
  have hpc : pulseCount inp (t + 1) = pulseCount inp t + (if inp t then 1 else 0) := rfl
  cases hi : inp t with
  | false =>
    simp only [postRun]
    rw [hi]
    simp [postStep]
  | true =>
    rw [hi] at hpc
    simp at hpc
    by_cases hc : (postRun N inp t).count = 0
    · have hp : pulseCount inp t % N = N - 1 := by omega
      have h0 : pulseCount inp (t + 1) % N = 0 := by
        rw [hpc]
        exact mod_succ_of_eq N _ hN hp
      simp only [postRun]
      rw [hi]
      simp [postStep, hc, h0]
    · have h1 : pulseCount inp t % N + 1 < N := by omega
      have hne : pulseCount inp (t + 1) % N ≠ 0 := by
        rw [hpc, mod_succ_of_lt N _ h1]
        omega
      have hbe : (pulseCount inp (t + 1) % N == 0) = false := by
        simpa using hne
      simp only [postRun]
      rw [hi]
      simp [postStep, hc, hbe]

/-- Witness for C6 at N = 4 and the four-pulse input, at cycle 4. -/
theorem refresh_postponer_every_nth_witness :
    (postRun 4 fourPulses 0).req_o = false
    ∧ ((postRun 4 fourPulses (3 + 1)).req_o
        = (fourPulses 3 && (pulseCount fourPulses (3 + 1) % 4 == 0)))
    ∧ ((postRun 4 fourPulses 1).req_o = false
       ∧ (postRun 4 fourPulses 2).req_o = false
       ∧ (postRun 4 fourPulses 3).req_o = false
       ∧ (postRun 4 fourPulses 4).req_o = true
       ∧ (postRun 4 fourPulses 5).req_o = false) :=
  refresh_postponer_every_nth 4 fourPulses 3 (by decide)

/-- Modelled from the spec: TimelineCounter, imported by refresher.py from
litedram.common, which is not among the sources under review.  Per spec 4.3
the executor uses a single shared elapsed-time counter compared against the
two thresholds: the counter is idle at zero, is started by the trigger,
increments once per cycle while running, and returns to zero upon reaching the
target (here the registered value tRP + tRFC). -/
def tlcStep (target : Nat) (counter : Nat) (trigger : Bool) : Nat :=
  if counter = 0 then (if trigger then 1 else 0)
  else if counter = target then 0
  else counter + 1

/-- Registered command drive of the refresh executor (refresher.py lines
53-84): address, bank address, cas, ras, we. -/
structure ExecCmd where
  a   : Nat
  ba  : Nat
  cas : Bool
  ras : Bool
  we  : Bool
  deriving DecidableEq, Repr

/-- Idle drive: the executor's synchronous block resets every field to zero
each cycle unless one of the three timeline conditions holds. -/
def execNop : ExecCmd := ⟨0, 0, false, false, false⟩

/-- Precharge-all drive (refresher.py lines 62-68): ras and we asserted, cas
deasserted, address bit 10 set. -/
def preaCmd : ExecCmd := ⟨2 ^ 10, 0, false, true, true⟩

/-- Auto-refresh drive (refresher.py lines 69-75): ras and cas asserted, we
deasserted, address bit 10 set (all banks). -/
def refCmd : ExecCmd := ⟨2 ^ 10, 0, true, true, false⟩

/-- Values registered into (cmd, done) by the executor's synchronous block
(refresher.py lines 53-84) as a function of the current timeline counter and
start: the defaults are written first, then the three If blocks in order, a
later assignment overriding an earlier one. -/
def execOut (trp trfc : Nat) (counter : Nat) (trigger : Bool) : ExecCmd × Bool :=
  let out := (execNop, false)
  let out := if trigger = true ∧ counter = 0 then (preaCmd, out.2) else out
  let out := if counter = trp then (refCmd, out.2) else out
  let out := if counter = trp + trfc then (execNop, true) else out
  out

/-- Executor state: the timeline counter and the registered cmd and done
outputs. -/
structure ExecSt where
  counter : Nat
  cmd     : ExecCmd
  done    : Bool
  deriving DecidableEq, Repr

/-- Reset state of the executor. -/
def execReset : ExecSt := ⟨0, execNop, false⟩

/-- One synchronous cycle of RefreshExecutor (refresher.py lines 16-84). -/
def execStep (trp trfc : Nat) (s : ExecSt) (start : Bool) : ExecSt :=
  { counter := tlcStep (trp + trfc) s.counter start,
    cmd     := (execOut trp trfc s.counter start).1,
    done    := (execOut trp trfc s.counter start).2 }

/-- Run of the executor from reset under a start stream. -/
def execRun (trp trfc : Nat) (start : Nat → Bool) : Nat → ExecSt
  | 0 => execReset
  | t + 1 => execStep trp trfc (execRun trp trfc start t) (start t)

/-- Single start pulse at cycle 0: the run started from idle. -/
def execStartPulse : Nat → Bool := fun t => t == 0

/-- Timeline counter characterization for the single-pulse run: the counter
equals the elapsed cycle index while the sequence runs and is zero before and
after. -/
theorem execRun_counter (trp trfc : Nat) (h1 : 1 ≤ trp) (h2 : 1 ≤ trfc) (t : Nat) :
    (execRun trp trfc execStartPulse t).counter =
      (if 1 ≤ t ∧ t ≤ trp + trfc then t else 0) := by
  have hT : 2 ≤ trp + trfc := by omega
  induction t with
  | zero => simp [execRun, execReset]
  | succ u ih =>
    have hstep : execRun trp trfc execStartPulse (u + 1) =
        execStep trp trfc (execRun trp trfc execStartPulse u) (execStartPulse u) := rfl
    rw [hstep]
    simp only [execStep]
    rcases Nat.eq_zero_or_pos u with hu | hu
    · subst hu
      have hc0 : (execRun trp trfc execStartPulse 0).counter = 0 := rfl
      rw [hc0]
      have h1v : tlcStep (trp + trfc) 0 (execStartPulse 0) = 1 := by
        simp [tlcStep, execStartPulse]
      rw [h1v, if_pos (by omega)]
    · have htr : execStartPulse u = false := by
        simp only [execStartPulse]
        simp
        omega
      rw [htr, ih]
      by_cases hP : 1 ≤ u ∧ u ≤ trp + trfc
      · rw [if_pos hP]
        simp only [tlcStep]
        rw [if_neg (by omega : ¬ (u = 0))]
        by_cases huT : u = trp + trfc
        · rw [if_pos huT, if_neg (by omega)]
        · rw [if_neg huT, if_pos (by omega)]
      · rw [if_neg hP]
        have hz : tlcStep (trp + trfc) 0 false = 0 := by
          simp [tlcStep]
        rw [hz, if_neg (by omega)]

/-- C5.  Started from idle by a single start pulse, the refresh executor
drives exactly one precharge-all command (ras and we asserted, cas deasserted,
address bit 10 set) at elapsed cycle 1 of the run, exactly one auto-refresh
command (ras and cas asserted, we deasserted) at elapsed cycle tRP + 1, and
asserts done as a one-cycle pulse at elapsed cycle tRP + tRFC + 1, driving no
other command at any other cycle; relative to the precharge-all, the
auto-refresh comes tRP cycles later and done tRP + tRFC cycles later, the
one-cycle offset being the output register stage of the synchronous block. -/
theorem refresh_executor_sequence (trp trfc : Nat) (h1 : 1 ≤ trp) (h2 : 1 ≤ trfc)
    (t : Nat) :
    (preaCmd.ras = true ∧ preaCmd.we = true ∧ preaCmd.cas = false
      ∧ preaCmd.a.testBit 10 = true)
    ∧ (refCmd.ras = true ∧ refCmd.cas = true ∧ refCmd.we = false)
    ∧ ((execRun trp trfc execStartPulse t).cmd = preaCmd ↔ t = 1)
    ∧ ((execRun trp trfc execStartPulse t).cmd = refCmd ↔ t = trp + 1)
    ∧ ((execRun trp trfc execStartPulse t).done = true ↔ t = trp + trfc + 1)
    ∧ (t ≠ 1 → t ≠ trp + 1 → (execRun trp trfc execStartPulse t).cmd = execNop) := by
  have hT : 2 ≤ trp + trfc := by omega
  have hnp : execNop ≠ preaCmd := by decide
  have hnr : execNop ≠ refCmd := by decide
  have hpr : preaCmd ≠ refCmd := by decide
  have hrp : refCmd ≠ preaCmd := by decide
  refine ⟨by decide, by decide, ?_⟩
  cases t with
  | zero =>
    exact ⟨iff_of_false hnp (by omega), iff_of_false hnr (by omega),
      iff_of_false Bool.false_ne_true (by omega), fun _ _ => rfl⟩
  | succ u =>
    have hstep : execRun trp trfc execStartPulse (u + 1) =
        execStep trp trfc (execRun trp trfc execStartPulse u) (execStartPulse u) := rfl
    have hcnt := execRun_counter trp trfc h1 h2 u
    rw [hstep]
    simp only [execStep]
    rcases Nat.eq_zero_or_pos u with hu | hu
    · subst hu
      have hc0 : (execRun trp trfc execStartPulse 0).counter = 0 := rfl
      rw [hc0]
      have hout : execOut trp trfc 0 (execStartPulse 0) = (preaCmd, false) := by
        have hn2 : ¬ ((0 : Nat) = trp) := by omega
        have hn3 : ¬ ((0 : Nat) = trp + trfc) := by omega
        simp [execOut, execStartPulse, hn2, hn3]
      rw [hout]
      exact ⟨iff_of_true rfl rfl, iff_of_false hpr (by omega),
        iff_of_false Bool.false_ne_true (by omega), fun h _ => absurd rfl h⟩
    · have htr : execStartPulse u = false := by
        simp only [execStartPulse]
        simp
        omega
      rw [htr]
      by_cases hP : 1 ≤ u ∧ u ≤ trp + trfc
      · rw [hcnt, if_pos hP]
        by_cases hutrp : u = trp
        · have hout : execOut trp trfc u false = (refCmd, false) := by
            have hn3 : ¬ (trp = trp + trfc) := by omega
            simp [execOut, hutrp, hn3]
          rw [hout]
          exact ⟨iff_of_false hrp (by omega), iff_of_true rfl (by omega),
            iff_of_false Bool.false_ne_true (by omega), fun _ h => absurd (by omega) h⟩
        · by_cases huT : u = trp + trfc
          · have hout : execOut trp trfc u false = (execNop, true) := by
              simp [execOut, huT]
            rw [hout]
            exact ⟨iff_of_false hnp (by omega), iff_of_false hnr (by omega),
              iff_of_true rfl (by omega), fun _ _ => rfl⟩
          · have hout : execOut trp trfc u false = (execNop, false) := by
              simp [execOut, hutrp, huT]
            rw [hout]
            exact ⟨iff_of_false hnp (by omega), iff_of_false hnr (by omega),
              iff_of_false Bool.false_ne_true (by omega), fun _ _ => rfl⟩
      · rw [hcnt, if_neg hP]
        have hout : execOut trp trfc 0 false = (execNop, false) := by
          have hn2 : ¬ ((0 : Nat) = trp) := by omega
          have hn3 : ¬ ((0 : Nat) = trp + trfc) := by omega
          simp [execOut, hn2, hn3]
        rw [hout]
        exact ⟨iff_of_false hnp (by omega), iff_of_false hnr (by omega),
          iff_of_false Bool.false_ne_true (by omega), fun _ _ => rfl⟩

/-- Witness for C5 at tRP = 2, tRFC = 3, observed at cycle 1 (the
precharge-all cycle). -/
theorem refresh_executor_sequence_witness :
    (preaCmd.ras = true ∧ preaCmd.we = true ∧ preaCmd.cas = false
      ∧ preaCmd.a.testBit 10 = true)
    ∧ (refCmd.ras = true ∧ refCmd.cas = true ∧ refCmd.we = false)
    ∧ ((execRun 2 3 execStartPulse 1).cmd = preaCmd ↔ (1 : Nat) = 1)
    ∧ ((execRun 2 3 execStartPulse 1).cmd = refCmd ↔ (1 : Nat) = 2 + 1)
    ∧ ((execRun 2 3 execStartPulse 1).done = true ↔ (1 : Nat) = 2 + 3 + 1)
    ∧ ((1 : Nat) ≠ 1 → (1 : Nat) ≠ 2 + 1 → (execRun 2 3 execStartPulse 1).cmd = execNop) :=
  refresh_executor_sequence 2 3 (by decide) (by decide) 1

end Refresher
